import Mathlib

/- Verification of the chocolate_road order-book pipeline.

   The definitions below are a shallow embedding of the Rust sources:
   machine floats (f32/f64) are idealised as rationals, u64/usize indices as
   naturals with explicit bounds checks where the Rust code can panic, and
   fallible or panicking code returns Option (none = panic).  Vec<Option<f32>>
   is modelled by FVec: an explicit length plus a total lookup function, with
   every access guarded by the length exactly as Rust's bounds checks are. -/

namespace Chocolate

/- Event bitfield constants, src/orderbook/mod.rs lines 10-20. -/

def INSERT : ℕ := 1

def REMOVE : ℕ := 2

def UPDATE : ℕ := 4

def TRADE : ℕ := 8

def ASK : ℕ := 16

def BID : ℕ := 32

/- Assets, src/exchange/mod.rs `pub enum Asset`. -/

inductive Asset
  | BTC | ETH | LTC | USDT | USD | JPY | CNY | KRW | EUR | GBP | CAD | AUD
deriving DecidableEq

/- The normalized tick, src/orderbook/mod.rs `pub struct Delta`. -/

structure Delta where
  symbol : String
  price : ℚ
  size : ℚ
  seq : ℕ
  event : ℕ
  ts : ℚ
deriving DecidableEq

/- Order-book snapshot, src/orderbook/mod.rs `pub struct Snapshot`. -/

structure Snapshot where
  market : Option Asset
  asset : Option Asset
  bids : List (ℚ × ℚ)
  asks : List (ℚ × ℚ)
deriving DecidableEq

/- Model of Rust's Vec<Option<f32>>: a length together with the stored
   contents; indexed reads and writes are guarded by the length, returning
   none where Rust would panic with an out-of-range index. -/

structure FVec where
  len : ℕ
  get : ℕ → Option ℚ

def FVec.set (v : FVec) (p : ℕ) (x : Option ℚ) : Option FVec :=
  if p < v.len then some ⟨v.len, fun i => if i = p then x else v.get i⟩ else none

def FVec.read (v : FVec) (p : ℕ) : Option (Option ℚ) :=
  if p < v.len then some (v.get p) else none

/- The order book, src/orderbook/mod.rs `pub struct Book`.  start_ts is the
   creation wall-clock time (irrelevant to the book logic) kept as a rational
   number of seconds. -/

structure Book where
  market : Option Asset
  asset : Option Asset
  start_ts : ℚ
  tick_size : ℚ
  lot_size : ℚ
  start_seq : ℕ
  best_bid : ℕ
  best_ask : ℕ
  best_bid_size : ℚ
  best_ask_size : ℚ
  bid_price_points : List ℕ
  ask_price_points : List ℕ
  state : FVec

/- `impl Default for Book` (start_ts `Utc::now()` is modelled as 0; no claim
   depends on it). -/

def defaultBook : Book :=
  { market := none, asset := none, start_ts := 0,
    tick_size := 1/10000, lot_size := 1/100000000, start_seq := 0,
    best_bid := 0, best_ask := 0, best_bid_size := 0, best_ask_size := 0,
    bid_price_points := [], ask_price_points := [],
    state := ⟨0, fun _ => none⟩ }

/- `(price / self.tick_size) as u64`: float division truncated to an
   unsigned integer (prices are positive, so floor). -/

def tickIndex (tick_size : ℚ) (p : ℚ) : ℕ := ((p / tick_size).floor).toNat

/- `vec![None; (1.0 / self.tick_size) as usize * 100_000]`. -/

def stateLen (tick_size : ℚ) : ℕ := (((1 : ℚ) / tick_size).floor).toNat * 100000

/- The per-side fill loop of Book::initialize: write each (tick, size) pair
   into the state vector in order; an out-of-range tick panics. -/

def fillSide (st : FVec) : List (ℕ × ℚ) → Option FVec
  | [] => some st
  | pr :: rest =>
    match st.set pr.1 (some pr.2) with
    | none => none
    | some st' => fillSide st' rest

/- Book::initialize (src/orderbook/mod.rs lines 121-160): quantize prices to
   tick indices, sort each side ascending by tick (Rust sort_by_key is stable,
   as is insertionSort), allocate the dense state vector, fill it, push the
   ticks onto the price-point vectors, and take best bid = last sorted bid,
   best ask = first sorted ask; with an empty side the corresponding loop does
   not run and the best fields keep their previous values. -/

def initBook (b : Book) (s : Snapshot) : Option Book :=
  let bids := List.insertionSort (fun x y : ℕ × ℚ => x.1 ≤ y.1)
    (s.bids.map (fun pr => (tickIndex b.tick_size pr.1, pr.2)))
  let asks := List.insertionSort (fun x y : ℕ × ℚ => x.1 ≤ y.1)
    (s.asks.map (fun pr => (tickIndex b.tick_size pr.1, pr.2)))
  let st0 : FVec := ⟨stateLen b.tick_size, fun _ => none⟩
  match fillSide st0 bids with
  | none => none
  | some st1 =>
    match fillSide st1 asks with
    | none => none
    | some st2 =>
      some { b with
        state := st2,
        bid_price_points := b.bid_price_points ++ bids.map Prod.fst,
        ask_price_points := b.ask_price_points ++ asks.map Prod.fst,
        best_bid := match bids.getLast? with
          | some pr => pr.1
          | none => b.best_bid,
        best_bid_size := match bids.getLast? with
          | some pr => pr.2
          | none => b.best_bid_size,
        best_ask := match asks.head? with
          | some pr => pr.1
          | none => b.best_ask,
        best_ask_size := match asks.head? with
          | some pr => pr.2
          | none => b.best_ask_size }

/- Result of processing one update inside Book::new_state.  `halted` is the
   early `return` the source executes after refreshing the best size; it
   yields the book reached so far and abandons the rest of the batch.
   `panicked` covers index-out-of-range and unwrap-of-None panics. -/

inductive Step
  | panicked
  | halted (b : Book)
  | next (b : Book)

/- The bid branch of Book::new_state (lines 181-232). -/

def applyBid (b : Book) (price : ℕ) (size : ℚ) : Step :=
  if size = 0 then
    if price = b.best_bid then
      let sorted := List.insertionSort (fun x y : ℕ => x ≤ y) b.bid_price_points
      if sorted.length < 2 then Step.panicked
      else
        match sorted[sorted.length - 2]? with
        | none => Step.panicked
        | some level =>
          match b.state.read level with
          | none => Step.panicked
          | some none => Step.panicked
          | some (some sz) =>
            match b.state.set price none with
            | none => Step.panicked
            | some st' =>
              Step.next { b with best_bid := level, best_bid_size := sz,
                                 bid_price_points := sorted.dropLast, state := st' }
    else
      match b.state.set price none with
      | none => Step.panicked
      | some st' =>
        Step.next { b with state := st',
                           bid_price_points := b.bid_price_points.erase price }
  else
    match b.state.set price (some size) with
    | none => Step.panicked
    | some st' =>
      let pts := if b.bid_price_points.contains price then b.bid_price_points
        else b.bid_price_points ++ [price]
      if price = b.best_bid then
        Step.halted { b with state := st', bid_price_points := pts,
                             best_bid_size := size }
      else if b.best_bid < price then
        Step.next { b with state := st', bid_price_points := pts,
                           best_bid := price, best_bid_size := size }
      else
        Step.next { b with state := st', bid_price_points := pts }

/- The ask branch of Book::new_state (lines 233-279).  Cancelling the best
   ask reads ask_price_points[1] after sorting (panicking when fewer than two
   points are recorded), then drops the first sorted element. -/

def applyAsk (b : Book) (price : ℕ) (size : ℚ) : Step :=
  if size = 0 then
    if price = b.best_ask then
      let sorted := List.insertionSort (fun x y : ℕ => x ≤ y) b.ask_price_points
      if sorted.length < 2 then Step.panicked
      else
        match sorted[1]? with
        | none => Step.panicked
        | some level =>
          match b.state.read level with
          | none => Step.panicked
          | some none => Step.panicked
          | some (some sz) =>
            match b.state.set price none with
            | none => Step.panicked
            | some st' =>
              Step.next { b with best_ask := level, best_ask_size := sz,
                                 ask_price_points := sorted.drop 1, state := st' }
    else
      match b.state.set price none with
      | none => Step.panicked
      | some st' =>
        Step.next { b with state := st',
                           ask_price_points := b.ask_price_points.erase price }
  else
    match b.state.set price (some size) with
    | none => Step.panicked
    | some st' =>
      let pts := if b.ask_price_points.contains price then b.ask_price_points
        else b.ask_price_points ++ [price]
      if price = b.best_ask then
        Step.halted { b with state := st', ask_price_points := pts,
                             best_ask_size := size }
      else if price < b.best_ask then
        Step.next { b with state := st', ask_price_points := pts,
                           best_ask := price, best_ask_size := size }
      else
        Step.next { b with state := st', ask_price_points := pts }

def applyUpdate (b : Book) (u : ℕ × ℚ × Bool) : Step :=
  if u.2.2 then applyBid b u.1 u.2.1 else applyAsk b u.1 u.2.1

/- Book::new_state over a batch: updates are applied in array order; a
   `return` in the source ends the batch with the book built so far; a panic
   (none) aborts everything. -/

def newState (b : Book) : List (ℕ × ℚ × Bool) → Option Book
  | [] => some b
  | u :: rest =>
    match applyUpdate b u with
    | Step.panicked => none
    | Step.halted b' => some b'
    | Step.next b' => newState b' rest

/- The level materialisation of Book::get_snapshot: each recorded price point
   is mapped to (tick index as a float, stored size or 0.0); an out-of-range
   point panics.  par_iter + collect preserves order. -/

def collectLevels (v : FVec) : List ℕ → Option (List (ℚ × ℚ))
  | [] => some []
  | p :: rest =>
    match v.read p with
    | none => none
    | some o => (collectLevels v rest).map (fun t => ((p : ℚ), o.getD 0) :: t)

def getSnapshot (b : Book) : Option Snapshot :=
  match collectLevels b.state b.bid_price_points,
        collectLevels b.state b.ask_price_points with
  | some bids, some asks =>
    some { market := b.market, asset := b.asset, bids := bids, asks := asks }
  | _, _ => none


/- Concrete instances used by the evaluation theorems.  e1Book/e1Snap are the
   book and snapshot of the repository's own test (tick_size 0.5, bids at
   302/303/304, asks at 305/306/307). -/

def e1Book : Book := { defaultBook with tick_size := 1/2 }

def e1Snap : Snapshot :=
  { market := none, asset := none,
    bids := [(302, 50), (303, 100), (304, 11111)],
    asks := [(305, 41/2), (306, 1), (307, 617/4)] }

/- A small book used by the C2 counterexample: best bid at tick 5, best ask
   at tick 8, one recorded point per side. -/

def cb2 : Book :=
  { defaultBook with tick_size := 1, best_bid := 5, best_bid_size := 1,
                     best_ask := 8, best_ask_size := 1,
                     bid_price_points := [5], ask_price_points := [8],
                     state := ⟨100000,
                       fun i => if i = 5 ∨ i = 8 then some 1 else none⟩ }

/- A one-level snapshot for the C4 counterexample. -/

def c4Snap : Snapshot :=
  { market := none, asset := none, bids := [(302, 50)], asks := [(305, 41/2)] }

/- A book whose recorded best bid (tick 3) is not the maximum of its bid
   price points, used by the C9 counterexample. -/

def cb9 : Book :=
  { defaultBook with tick_size := 1, best_bid := 3, best_bid_size := 1,
                     best_ask := 9, best_ask_size := 1,
                     bid_price_points := [3, 5], ask_price_points := [9],
                     state := ⟨100000,
                       fun i => if i = 3 ∨ i = 5 ∨ i = 9 then some 1 else none⟩ }

set_option maxRecDepth 8000 in
/-- Claim C1: after any update batch from a valid snapshot the book invariants
of §3 hold, in particular best_bid < best_ask.  The code accepts a bid update
above the best ask without rejection: initializing from the valid E1 snapshot
(best_bid tick 608, best_ask tick 610) and applying the single bid update at
tick 611 yields best_bid = 611 > best_ask = 610, a crossed book.  This
evaluates the code at the failing input of the code_bug report. -/
theorem C1_eval :
    ((initBook e1Book e1Snap).bind (fun b => newState b [(611, 5, true)])).map
      (fun b => (b.best_bid, b.best_ask)) = some (611, 610) ∧ (610 : ℕ) < 611 := by
  with_unfolding_all decide

set_option maxRecDepth 8000 in
/-- Claim C2, counterexample: the claim says every update of a batch is
applied, even after one that touches the current best bid or ask.  In the
source, a non-zero-size update at the current best bid executes `return`,
abandoning the batch: applying [(5, 2, bid), (7, 3, bid)] to a book whose
best bid is 5 leaves tick 7 unset and the point list without 7, whereas the
claim requires state[7] = Some(3). -/
theorem C2_cex :
    (newState cb2 [(5, 2, true), (7, 3, true)]).map
      (fun b => ((b.state.get 7).isSome, b.best_bid, b.bid_price_points)) =
    some (false, 5, [5]) := by
  with_unfolding_all decide

set_option maxRecDepth 8000 in
/-- Claim C4, counterexample: the claim says each price returned by
get_snapshot equals the original snapshot price, not the integer tick index.
With tick_size 0.5 and a snapshot bid (302.0, 50), get_snapshot right after
initialization returns the pair (604.0, 50) - the tick index as a float - and
604 differs from the original price 302. -/
theorem C4_cex :
    ((initBook e1Book c4Snap).bind getSnapshot).map Snapshot.bids =
      some [(604, 50)] ∧ ((604 : ℚ), (50 : ℚ)) ≠ (302, 50) := by
  with_unfolding_all decide

set_option maxRecDepth 8000 in
/-- Claim C9, counterexample: the claim says a size-zero removal is
idempotent on every book, given the first application does not panic.  On a
book with bid price points [3, 5] and best_bid = 3, the first cancel
(3, 0, bid) succeeds (it selects sorted[len-2] = 3 and pops the 5), but the
second application panics on bid_price_points[len-2] with a single recorded
point, so applying twice is not equivalent to applying once. -/
theorem C9_cex :
    (newState cb9 [(3, 0, true)]).isSome = true ∧
    ((newState cb9 [(3, 0, true)]).bind
      (fun b1 => newState b1 [(3, 0, true)])).isNone = true := by
  with_unfolding_all decide


/- BitMEX adapter model, src/exchange/bitmex.rs.  Wire values arrive already
   deserialized (serde); f32/f64 are idealised as rationals and the message
   timestamp `Utc::now().timestamp_millis() * 0.001` is passed in as `ts`.
   The instrument maps `asset_indexes`/`asset_tick_size` are modelled as
   partial String-keyed maps; the source indexes them with HashMap's Index,
   which panics on a missing key. -/

structure BEntry where
  symbol : String
  side : String
  id : Option ℕ
  size : Option ℚ
  price : Option ℚ
deriving DecidableEq

structure BMessage where
  table : String
  action : String
  data : List BEntry
deriving DecidableEq

inductive EntryRes
  | skip
  | panicked
  | ok (d : Delta)
deriving DecidableEq

def U64SIZE : ℕ := 2 ^ 64

/- One iteration of the `for update in message.data` loop of on_message
   (src/exchange/bitmex.rs lines 295-337).  Entries without an id are
   skipped.  The u64 subtractions `8800000000 - id` and
   `100000000 * index - id` are modelled with debug overflow semantics
   (panic on underflow); the multiplication wraps modulo 2^64.  The float
   products `(...) as f32 * 0.01` and `* tickSize` are exact rationals. -/

def bitmexEntryDelta (action : String) (ts : ℚ) (idxMap : String → Option ℕ)
    (tickMap : String → Option ℚ) (e : BEntry) : EntryRes :=
  match e.id with
  | none => EntryRes.skip
  | some k =>
    let isBid := if e.side = "Buy" then BID else ASK
    let isTrade := if action = "Trade" then TRADE else UPDATE
    if e.symbol = "XBTUSD" then
      if k ≤ 8800000000 then
        EntryRes.ok
          { symbol := "XBTUSD",
            price := ((8800000000 - k : ℕ) : ℚ) * (1/100),
            size := e.size.getD 0, seq := 0, event := Nat.xor isBid isTrade,
            ts := ts }
      else EntryRes.panicked
    else
      match idxMap e.symbol, tickMap e.symbol with
      | some i, some tsz =>
        let prod := (100000000 * i) % U64SIZE
        if k ≤ prod then
          EntryRes.ok
            { symbol := e.symbol,
              price := ((prod - k : ℕ) : ℚ) * tsz,
              size := e.size.getD 0, seq := 0, event := Nat.xor isBid isTrade,
              ts := ts }
        else EntryRes.panicked
      | _, _ => EntryRes.panicked

/- Outcome of one on_message call: the early return for skipped frames, a
   worker-thread panic, or the delta batch published to the exchange
   channel. -/

inductive ProcRes
  | skipped
  | panicked
  | published (ds : List Delta)
deriving DecidableEq

def collectEntries (action : String) (ts : ℚ) (idxMap : String → Option ℕ)
    (tickMap : String → Option ℚ) : List BEntry → Option (List Delta)
  | [] => some []
  | e :: rest =>
    match bitmexEntryDelta action ts idxMap tickMap e with
    | EntryRes.skip => collectEntries action ts idxMap tickMap rest
    | EntryRes.panicked => none
    | EntryRes.ok d =>
      (collectEntries action ts idxMap tickMap rest).map (fun t => d :: t)

/- on_message, src/exchange/bitmex.rs lines 284-356: the frame is dropped
   exactly when `message.table == "" || message.table == "partial"`; note the
   source compares the TABLE field against "partial", not the action field. -/

def bitmexOnMessage (msg : BMessage) (idxMap : String → Option ℕ)
    (tickMap : String → Option ℚ) (ts : ℚ) : ProcRes :=
  if msg.table = "" ∨ msg.table = "partial" then ProcRes.skipped
  else
    match collectEntries msg.action ts idxMap tickMap msg.data with
    | none => ProcRes.panicked
    | some ds => ProcRes.published ds

def seqsOf (r : ProcRes) : List ℕ :=
  match r with
  | ProcRes.published ds => ds.map Delta.seq
  | _ => []

/- GDAX/Coinbase level-2 adapter model, src/exchange/gdax_l2.rs.  String
   price/size fields and the timestamp are modelled as already parsed
   rationals (the source's parse::<f32>().unwrap() and
   datetime_from_str().unwrap()). -/

structure GChange where
  side : String
  price : ℚ
  size : ℚ
deriving DecidableEq

structure GMessage where
  type_ : String
  product_id : String
  time : ℚ
  changes : Option (List GChange)
  sequence : Option ℕ
  size : Option ℚ
  price : Option ℚ
  side : Option String
deriving DecidableEq

def U32SIZE : ℕ := 2 ^ 32

/- The l2update loop (lines 242-268): the counter starts at 1 and increments
   once per change. -/

def gdaxDeltas (m : GMessage) (i : ℕ) : List GChange → List Delta
  | [] => []
  | ch :: rest =>
    { symbol := m.product_id, price := ch.price, size := ch.size, seq := i,
              event := Nat.xor (if ch.side = "buy" then BID else ASK)
                (if ch.size = 0 then REMOVE else UPDATE),
              ts := m.time } :: gdaxDeltas m (i + 1) rest

/- on_message, src/exchange/gdax_l2.rs lines 234-310.  A message with a
   `changes` field publishes the synthesized-sequence batch; a match or
   last_match publishes a single trade delta whose u128 sequence is cast to
   u32 (`as u32` truncates modulo 2^32) and whose absent fields panic on
   unwrap; everything else (snapshots) publishes nothing. -/

def gdaxOnMessage (m : GMessage) : ProcRes :=
  match m.changes with
  | some chs => ProcRes.published (gdaxDeltas m 1 chs)
  | none =>
    if m.type_ = "match" ∨ m.type_ = "last_match" then
      match m.sequence, m.size, m.price, m.side with
      | some sq, some sz, some pr, some sd =>
        ProcRes.published
          [{ symbol := m.product_id, price := pr, size := sz,
             seq := sq % U32SIZE,
             event := Nat.xor (if sd = "buy" then BID else ASK) TRADE,
             ts := m.time }]
      | _, _, _, _ => ProcRes.panicked
    else ProcRes.skipped


/- Concrete BitMEX frames for the adapter theorems. -/

def e5Entry : BEntry :=
  { symbol := "XBTUSD", side := "Buy", id := some 8799990000,
    size := some 5, price := some 100 }

def msg6 : BMessage :=
  { table := "orderBookL2", action := "partial", data := [e5Entry] }

def msg7 : BMessage :=
  { table := "trade", action := "Trade",
    data := [e5Entry,
             { symbol := "XBTUSD", side := "Buy", id := some 8799980000,
               size := some 2, price := none }] }

/-- Claim C5: for a BitMEX data entry with an id, the produced delta's price
is (8_800_000_000 - id) * 0.01 for XBTUSD, and
(100_000_000 * index - id) * tickSize for any other symbol with registered
index and tick size, and its event is side XOR kind.  The equalities are
exact over the rational idealisation of f32, hence within the claim's 1e-4
relative error bound; the hypotheses k ≤ 8800000000, k ≤ 100000000 * i and
100000000 * i < 2^64 rule out the u64 overflow panics. -/
theorem C5_price_event (action : String) (ts : ℚ) (idxMap : String → Option ℕ)
    (tickMap : String → Option ℚ) (e : BEntry) (k : ℕ) (hid : e.id = some k) :
    (e.symbol = "XBTUSD" → k ≤ 8800000000 →
      bitmexEntryDelta action ts idxMap tickMap e =
        EntryRes.ok
          { symbol := "XBTUSD",
            price := ((8800000000 : ℚ) - (k : ℚ)) * (1/100),
            size := e.size.getD 0, seq := 0,
            event := Nat.xor (if e.side = "Buy" then BID else ASK)
              (if action = "Trade" then TRADE else UPDATE),
            ts := ts }) ∧
    (∀ (i : ℕ) (tsz : ℚ), e.symbol ≠ "XBTUSD" → idxMap e.symbol = some i →
      tickMap e.symbol = some tsz → 100000000 * i < U64SIZE →
      k ≤ 100000000 * i →
      bitmexEntryDelta action ts idxMap tickMap e =
        EntryRes.ok
          { symbol := e.symbol,
            price := (((100000000 * i : ℕ) : ℚ) - (k : ℚ)) * tsz,
            size := e.size.getD 0, seq := 0,
            event := Nat.xor (if e.side = "Buy" then BID else ASK)
              (if action = "Trade" then TRADE else UPDATE),
            ts := ts }) := by
  constructor
  · intro hsym hk
    rw [bitmexEntryDelta, hid]
    simp only [hsym, if_true, if_pos hk]
    congr 1
    rw [Nat.cast_sub hk]
    norm_num
  · intro i tsz hsym hidx htick hlt hk
    rw [bitmexEntryDelta, hid]
    simp only [hsym, if_false, hidx, htick, if_true]
    have hmod : (100000000 * i) % U64SIZE = 100000000 * i := Nat.mod_eq_of_lt hlt
    simp only [hmod, if_pos hk]
    congr 1
    rw [Nat.cast_sub hk]

set_option maxRecDepth 8000 in
/-- Claim C5, witness: the E5 frame entry (XBTUSD, Buy, id 8799990000,
size 5) under action "Trade" yields price 100, size 5 and
event = BID XOR TRADE = 40. -/
theorem C5_price_event_witness :
    bitmexEntryDelta "Trade" 0 (fun _ => none) (fun _ => none) e5Entry =
      EntryRes.ok
        { symbol := "XBTUSD", price := 100, size := 5, seq := 0, event := 40,
          ts := 0 } := by
  have h := (C5_price_event "Trade" 0 (fun _ => none) (fun _ => none) e5Entry
    8799990000 rfl).1 rfl (by norm_num)
  exact h.trans (by with_unfolding_all decide)

set_option maxRecDepth 8000 in
/-- Claim C6: the claim says the adapter skips a message exactly when its
table field is empty or its ACTION field is "partial".  The source instead
tests `message.table == "partial"`; a message with table "orderBookL2" and
action "partial" (a real BitMEX snapshot frame) is therefore NOT skipped and
publishes a delta batch, contradicting the claim and the code's own
"Skip snapshots" comment.  This evaluates the code at that failing input. -/
theorem C6_eval :
    bitmexOnMessage msg6 (fun _ => none) (fun _ => none) 0 =
      ProcRes.published
        [{ symbol := "XBTUSD", price := 100, size := 5, seq := 0, event := 36,
           ts := 0 }] ∧
    msg6.action = "partial" ∧ msg6.table ≠ "" ∧ msg6.table ≠ "partial" := by
  with_unfolding_all decide

set_option maxRecDepth 8000 in
/-- Claim C7, counterexample: the claim says BitMEX batches carry sequence
numbers synthesized as 1..N.  The source sets seq to the constant 0 on every
BitMEX delta: a two-entry trade frame publishes sequences [0, 0], not [1, 2],
and [0, 0] is not strictly increasing. -/
theorem C7_cex :
    seqsOf (bitmexOnMessage msg7 (fun _ => none) (fun _ => none) 0) = [0, 0] ∧
    ([0, 0] : List ℕ) ≠ [1, 2] := by
  with_unfolding_all decide


/- Helper lemmas about the adapter batch builders. -/

lemma bitmexEntryDelta_seq (action : String) (ts : ℚ) (im : String → Option ℕ)
    (tm : String → Option ℚ) (e : BEntry) (d : Delta)
    (h : bitmexEntryDelta action ts im tm e = EntryRes.ok d) : d.seq = 0 := by
  unfold bitmexEntryDelta at h
  cases hid : e.id with
  | none => rw [hid] at h; cases h
  | some k =>
    rw [hid] at h
    dsimp only at h
    split at h
    · split at h
      · cases h; rfl
      · cases h
    · split at h
      · split at h
        · cases h; rfl
        · cases h
      · cases h

lemma collectEntries_seq_zero (action : String) (ts : ℚ) (im : String → Option ℕ)
    (tm : String → Option ℚ) :
    ∀ (l : List BEntry) (ds : List Delta),
      collectEntries action ts im tm l = some ds → ∀ d ∈ ds, d.seq = 0 := by
  intro l
  induction l with
  | nil =>
    intro ds h d hd
    unfold collectEntries at h
    cases h
    cases hd
  | cons e rest ih =>
    intro ds h d hd
    unfold collectEntries at h
    cases hE : bitmexEntryDelta action ts im tm e with
    | skip => rw [hE] at h; exact ih ds h d hd
    | panicked => rw [hE] at h; cases h
    | ok d0 =>
      rw [hE] at h
      rcases Option.map_eq_some'.mp h with ⟨t, ht, rfl⟩
      rcases List.mem_cons.mp hd with rfl | hd'
      · exact bitmexEntryDelta_seq action ts im tm e d hE
      · exact ih t ht d hd'

lemma gdaxDeltas_seq_map (m : GMessage) :
    ∀ (chs : List GChange) (i : ℕ),
      (gdaxDeltas m i chs).map Delta.seq = List.range' i chs.length := by
  intro chs
  induction chs with
  | nil => intro i; rfl
  | cons ch rest ih =>
    intro i
    simp only [gdaxDeltas, List.map_cons, List.length_cons, List.range'_succ]
    exact congrArg (List.cons i) (ih (i + 1))

/-- Claim C7, amended: within one batch, GDAX l2update deltas carry sequence
numbers synthesized as 1..N (strictly increasing) and a GDAX match carries
the exchange-provided sequence number truncated to 32 bits; BitMEX deltas,
however, all carry the constant sequence number 0 (so a BitMEX batch is only
non-strictly monotone, not 1..N as the original claim states). -/
theorem C7_amended :
    (∀ (msg : BMessage) (idxMap : String → Option ℕ)
       (tickMap : String → Option ℚ) (ts : ℚ) (ds : List Delta),
       bitmexOnMessage msg idxMap tickMap ts = ProcRes.published ds →
       ∀ d ∈ ds, d.seq = 0) ∧
    (∀ (m : GMessage) (chs : List GChange), m.changes = some chs →
       gdaxOnMessage m = ProcRes.published (gdaxDeltas m 1 chs) ∧
       (gdaxDeltas m 1 chs).map Delta.seq = List.range' 1 chs.length ∧
       List.Chain' (· < ·) ((gdaxDeltas m 1 chs).map Delta.seq)) ∧
    (∀ (m : GMessage) (sq : ℕ) (sz pr : ℚ) (sd : String), m.changes = none →
       (m.type_ = "match" ∨ m.type_ = "last_match") → m.sequence = some sq →
       m.size = some sz → m.price = some pr → m.side = some sd →
       ∃ d, gdaxOnMessage m = ProcRes.published [d] ∧ d.seq = sq % U32SIZE) := by
  refine ⟨?_, ?_, ?_⟩
  · intro msg idxMap tickMap ts ds h d hd
    unfold bitmexOnMessage at h
    split at h
    · cases h
    · cases hc : collectEntries msg.action ts idxMap tickMap msg.data with
      | none => rw [hc] at h; cases h
      | some ds' =>
        rw [hc] at h
        cases h
        exact collectEntries_seq_zero msg.action ts idxMap tickMap msg.data ds hc d hd
  · intro m chs hch
    refine ⟨by unfold gdaxOnMessage; rw [hch], gdaxDeltas_seq_map m chs 1, ?_⟩
    rw [gdaxDeltas_seq_map m chs 1]
    exact (List.pairwise_lt_range' 1 chs.length).chain'
  · intro m sq sz pr sd hch hty hsq hsz hpr hsd
    unfold gdaxOnMessage
    rw [hch, hsq, hsz, hpr, hsd]
    simp only [if_pos hty]
    exact ⟨_, rfl, rfl⟩

/- A concrete GDAX l2update message (the E6 frame of the spec, with strings
   already parsed). -/

def gmW : GMessage :=
  { type_ := "l2update", product_id := "BTC-USD", time := 0,
    changes := some [{ side := "buy", price := 9000, size := 0 },
                     { side := "sell", price := 9001, size := 1/2 }],
    sequence := none, size := none, price := none, side := none }

/-- Claim C7, witness: instantiating the amended theorem on the two-change E6
l2update frame yields a published batch with sequences range' 1 2 = [1, 2],
strictly increasing. -/
theorem C7_amended_witness :
    gdaxOnMessage gmW =
      ProcRes.published (gdaxDeltas gmW 1
        [{ side := "buy", price := 9000, size := 0 },
         { side := "sell", price := 9001, size := 1/2 }]) ∧
    (gdaxDeltas gmW 1
        [{ side := "buy", price := 9000, size := 0 },
         { side := "sell", price := 9001, size := 1/2 }]).map Delta.seq =
      List.range' 1 2 ∧
    List.Chain' (· < ·) ((gdaxDeltas gmW 1
        [{ side := "buy", price := 9000, size := 0 },
         { side := "sell", price := 9001, size := 1/2 }]).map Delta.seq) :=
  C7_amended.2.1 gmW
    [{ side := "buy", price := 9000, size := 0 },
     { side := "sell", price := 9001, size := 1/2 }] rfl

/- Tick-store client model, src/orderbook/tectonic.rs.  `cmd` writes the
   command and then calls `read(&mut buf)` on a freshly created EMPTY Vec:
   a read into a zero-length buffer transfers min(0, available) = 0 bytes,
   so the server's reply is never observed.  readIntoBuf models a single
   read call with the given buffer capacity. -/

def readIntoBuf (cap : ℕ) (available : String) : String := ⟨available.data.take cap⟩

def tectonicCmdReply (serverReply : String) : String := readIntoBuf 0 serverReply

/- `result.chars().next().unwrap_or(dflt)`. -/

def firstCharD (s : String) (dflt : Char) : Char :=
  match s.data with
  | [] => dflt
  | c :: _ => c

/- TectonicConnection::exists (lines 106-110): first character of the reply
   string compared with '1', empty reply defaulting to '0'. -/

def tectonicExists (serverReply : String) : Bool :=
  firstCharD (tectonicCmdReply serverReply) '0' == '1'

/- The on_open ensure-database step of both adapters:
   `if !self.tectonic.exists(db)? { create(db) }`. -/

def onOpenIssuesCreate (serverReply : String) : Bool := !(tectonicExists serverReply)

/- The behaviour the spec describes for EXISTS, for comparison: inspect the
   first character of the server's actual reply. -/

def existsSpecified (serverReply : String) : Bool := firstCharD serverReply '0' == '1'

/-- Claim C8: the claim says exists returns true exactly when the server's
reply begins with '1'.  In the source, cmd reads into an empty Vec, so zero
bytes are transferred and the reply is discarded: when the server replies
"1" the spec-described check yields true, but the code returns false and the
on_open callers issue CREATE anyway; indeed the code's exists returns false
for every server reply.  This evaluates the code at the failing input of the
code_bug report. -/
theorem C8_eval :
    tectonicExists "1" = false ∧ existsSpecified "1" = true ∧
    onOpenIssuesCreate "1" = true ∧
    ∀ reply : String, tectonicExists reply = false := by
  refine ⟨rfl, rfl, rfl, ?_⟩
  intro reply
  rfl

/- Archive worker model, src/uploader.rs and the call order of
   src/listener.rs.  The on-disk state is reduced to the tick-store source
   directory (a list of files with abstract contents) and the local .tar.xz
   archive file.  compress_database_and_delete tars the source directory
   rooted as "db/", xz-compresses it into the archive file, and then deletes
   EVERY file of the source directory - unconditionally, before any upload.
   s3_upload deletes the archive only after a successful PUT and returns the
   error, keeping the archive, on a failed PUT. -/

structure DiskState where
  sourceFiles : List (String × ℕ)
  archiveFile : Option (List (String × ℕ))
deriving DecidableEq

inductive UploadResult
  | ok
  | error
deriving DecidableEq

def compressDatabaseAndDelete (d : DiskState) : DiskState :=
  { sourceFiles := [],
    archiveFile := some (d.sourceFiles.map (fun f => ("db/" ++ f.1, f.2))) }

def s3Upload (d : DiskState) (putSucceeds : Bool) : DiskState × UploadResult :=
  if putSucceeds then ({ d with archiveFile := none }, UploadResult.ok)
  else (d, UploadResult.error)

/- listener.rs lines 71-72: compress_database_and_delete(&t, None) runs to
   completion before s3_upload(&t, ...) is called. -/

def archivePipeline (d : DiskState) (putSucceeds : Bool) : DiskState × UploadResult :=
  s3Upload (compressDatabaseAndDelete d) putSucceeds

def dW : DiskState := { sourceFiles := [("a.dtf", 0)], archiveFile := none }

/-- Claim C3, counterexample: the claim says that on a PUT error no file of
the source directory has been deleted.  Running the pipeline on a directory
holding one file with a failing PUT surfaces the error and preserves the
archive, but the source directory is already empty: its file was deleted by
compress_database_and_delete before the upload was attempted. -/
theorem C3_cex :
    (archivePipeline dW false).2 = UploadResult.error ∧
    (archivePipeline dW false).1.archiveFile = some [("db/a.dtf", 0)] ∧
    (archivePipeline dW false).1.sourceFiles = [] ∧
    dW.sourceFiles ≠ [] := by decide

/-- Claim C3, amended: on a PUT error the local .tar.xz archive is preserved
and the error is returned to the caller, but the files of the source
directory have already been deleted during compress_database_and_delete,
unconditionally and before the PUT; on a successful PUT the archive is
deleted as well.  Source deletion is not gated on the PUT outcome. -/
theorem C3_amended (d : DiskState) (putOk : Bool) :
    (archivePipeline d putOk).1.sourceFiles = [] ∧
    (putOk = false →
      (archivePipeline d putOk).1.archiveFile =
        some (d.sourceFiles.map (fun f => ("db/" ++ f.1, f.2))) ∧
      (archivePipeline d putOk).2 = UploadResult.error) ∧
    (putOk = true →
      (archivePipeline d putOk).1.archiveFile = none ∧
      (archivePipeline d putOk).2 = UploadResult.ok) := by
  cases putOk <;>
    simp [archivePipeline, s3Upload, compressDatabaseAndDelete]

/-- Claim C3, witness: the amended theorem applied to the one-file directory
with a failing PUT. -/
theorem C3_amended_witness :
    (archivePipeline dW false).1.sourceFiles = [] ∧
    (archivePipeline dW false).1.archiveFile = some [("db/a.dtf", 0)] ∧
    (archivePipeline dW false).2 = UploadResult.error := by
  obtain ⟨h1, h2, h3⟩ := C3_amended dW false
  exact ⟨h1, (h2 rfl).1.trans (by decide), (h2 rfl).2⟩


/-- Claim C10: a size-zero removal at the tick currently recorded as best bid
(resp. best ask) panics whenever the side records fewer than two price
points - bid_price_points[len - 2] resp. ask_price_points[1] is out of
range - and conversely, absence of panic requires at least two recorded
price points on the cancelled side (under the section 3 invariants the
recorded points are exactly the occupied levels).  The spec states no such
precondition on new_state. -/
theorem C10_panic_conditions (b : Book) (p : ℕ) :
    (p = b.best_bid → b.bid_price_points.length < 2 →
      newState b [(p, 0, true)] = none) ∧
    (p = b.best_bid → (newState b [(p, 0, true)]).isSome = true →
      2 ≤ b.bid_price_points.length) ∧
    (p = b.best_ask → b.ask_price_points.length < 2 →
      newState b [(p, 0, false)] = none) ∧
    (p = b.best_ask → (newState b [(p, 0, false)]).isSome = true →
      2 ≤ b.ask_price_points.length) := by
  have hbid : p = b.best_bid → b.bid_price_points.length < 2 →
      newState b [(p, 0, true)] = none := by
    intro hp hl
    have hsl : (List.insertionSort (fun x y : ℕ => x ≤ y)
        b.bid_price_points).length < 2 := by
      rwa [List.length_insertionSort]
    simp only [newState, applyUpdate, applyBid, eq_self_iff_true, if_true,
      hp, hsl]
  have hask : p = b.best_ask → b.ask_price_points.length < 2 →
      newState b [(p, 0, false)] = none := by
    intro hp hl
    have hsl : (List.insertionSort (fun x y : ℕ => x ≤ y)
        b.ask_price_points).length < 2 := by
      rwa [List.length_insertionSort]
    simp only [newState, applyUpdate, applyAsk, eq_self_iff_true, if_true,
      if_false, Bool.false_eq_true, hp, hsl]
  refine ⟨hbid, ?_, hask, ?_⟩
  · intro hp hs
    by_contra hlt
    push_neg at hlt
    rw [hbid hp hlt] at hs
    cases hs
  · intro hp hs
    by_contra hlt
    push_neg at hlt
    rw [hask hp hlt] at hs
    cases hs

/- A book recording a single bid price point at its best bid. -/

def cbW : Book :=
  { defaultBook with best_bid := 4, best_bid_size := 1,
                     bid_price_points := [4],
                     state := ⟨10, fun i => if i = 4 then some 1 else none⟩ }

/-- Claim C10, witness: cancelling the best bid of a book with a single
recorded bid price point panics. -/
theorem C10_panic_conditions_witness : newState cbW [(4, 0, true)] = none :=
  (C10_panic_conditions cbW 4).1 rfl (by decide)


/- Helper lemmas about FVec and the update step. -/

lemma FVec.read_set {v v' : FVec} {p : ℕ} {x : Option ℚ}
    (h : v.set p x = some v') : v'.read p = some x := by
  unfold FVec.set at h
  split at h
  · cases h
    unfold FVec.read
    rename_i hlt
    rw [if_pos hlt]
    simp
  · cases h

/- The Option-valued view of a Step outcome: the book produced by a
   successful iteration (next or halted), none on panic. -/

def stepBook : Step → Option Book
  | Step.panicked => none
  | Step.halted b => some b
  | Step.next b => some b

lemma applyBid_state (b : Book) (p : ℕ) (s : ℚ) (b' : Book)
    (h : stepBook (applyBid b p s) = some b') :
    b'.state.read p = some (if s = 0 then none else some s) := by
  unfold applyBid at h
  by_cases hz : s = 0
  · rw [if_pos hz] at h
    rw [if_pos hz]
    cases hset : b.state.set p none with
    | none =>
      simp only [hset] at h
      repeat' split at h
      all_goals simp_all [stepBook]
    | some st' =>
      simp only [hset] at h
      repeat' split at h
      all_goals
        first
          | (try simp only [stepBook, Option.some_inj] at h
             subst h
             exact FVec.read_set hset)
          | simp_all [stepBook]
  · rw [if_neg hz] at h
    rw [if_neg hz]
    cases hset : b.state.set p (some s) with
    | none =>
      simp only [hset] at h
      repeat' split at h
      all_goals simp_all [stepBook]
    | some st' =>
      simp only [hset] at h
      repeat' split at h
      all_goals
        first
          | (try simp only [stepBook, Option.some_inj] at h
             subst h
             exact FVec.read_set hset)
          | simp_all [stepBook]

lemma applyAsk_state (b : Book) (p : ℕ) (s : ℚ) (b' : Book)
    (h : stepBook (applyAsk b p s) = some b') :
    b'.state.read p = some (if s = 0 then none else some s) := by
  unfold applyAsk at h
  by_cases hz : s = 0
  · rw [if_pos hz] at h
    rw [if_pos hz]
    cases hset : b.state.set p none with
    | none =>
      simp only [hset] at h
      repeat' split at h
      all_goals simp_all [stepBook]
    | some st' =>
      simp only [hset] at h
      repeat' split at h
      all_goals
        first
          | (try simp only [stepBook, Option.some_inj] at h
             subst h
             exact FVec.read_set hset)
          | simp_all [stepBook]
  · rw [if_neg hz] at h
    rw [if_neg hz]
    cases hset : b.state.set p (some s) with
    | none =>
      simp only [hset] at h
      repeat' split at h
      all_goals simp_all [stepBook]
    | some st' =>
      simp only [hset] at h
      repeat' split at h
      all_goals
        first
          | (try simp only [stepBook, Option.some_inj] at h
             subst h
             exact FVec.read_set hset)
          | simp_all [stepBook]

/-- Claim C2, amended: updates of a batch are applied in array index order,
and when both of two updates touching the same tick are reached, the final
state at that tick is that of the later update; however a non-zero-size
update whose tick equals the current best bid (resp. best ask) updates the
best size and then returns, so the remainder of the batch is not applied
(processing the batch from that update on is the same as processing the
one-update batch). -/
theorem C2_amended :
    (∀ (b : Book) (p : ℕ) (s : ℚ) (rest : List (ℕ × ℚ × Bool)),
      s ≠ 0 → p = b.best_bid →
      newState b ((p, s, true) :: rest) = newState b [(p, s, true)]) ∧
    (∀ (b : Book) (p : ℕ) (s : ℚ) (rest : List (ℕ × ℚ × Bool)),
      s ≠ 0 → p = b.best_ask →
      newState b ((p, s, false) :: rest) = newState b [(p, s, false)]) ∧
    (∀ (b b₁ b₂ : Book) (p : ℕ) (s₁ s₂ : ℚ) (d : Bool),
      applyUpdate b (p, s₁, d) = Step.next b₁ →
      newState b [(p, s₁, d), (p, s₂, d)] = some b₂ →
      b₂.state.read p = some (if s₂ = 0 then none else some s₂)) := by
  refine ⟨?_, ?_, ?_⟩
  · intro b p s rest hs hp
    simp only [newState, applyUpdate, applyBid, if_neg hs]
    cases hset : b.state.set p (some s) <;> simp [hp]
  · intro b p s rest hs hp
    simp only [newState, applyUpdate, applyAsk, if_neg hs]
    cases hset : b.state.set p (some s) <;> simp [hp]
  · intro b b₁ b₂ p s₁ s₂ d h1 h2
    have h2' : stepBook (applyUpdate b₁ (p, s₂, d)) = some b₂ := by
      unfold newState at h2
      rw [h1] at h2
      unfold newState at h2
      cases hA : applyUpdate b₁ (p, s₂, d) with
      | panicked => rw [hA] at h2; cases h2
      | halted bh => rw [hA] at h2; cases h2; simp [stepBook]
      | next bn =>
        rw [hA] at h2
        unfold newState at h2
        cases h2
        simp [stepBook]
    cases d with
    | false =>
      have hax : applyUpdate b₁ (p, s₂, false) = applyAsk b₁ p s₂ := rfl
      rw [hax] at h2'
      exact applyAsk_state b₁ p s₂ b₂ h2'
    | true =>
      have hbx : applyUpdate b₁ (p, s₂, true) = applyBid b₁ p s₂ := rfl
      rw [hbx] at h2'
      exact applyBid_state b₁ p s₂ b₂ h2'

/-- Claim C2, witness: on the cb2 book (best bid 5), the two-update batch
[(5, 2, bid), (7, 3, bid)] is processed exactly like the one-update batch
[(5, 2, bid)] - the second update is abandoned by the early return. -/
theorem C2_amended_witness :
    newState cb2 [(5, 2, true), (7, 3, true)] = newState cb2 [(5, 2, true)] :=
  C2_amended.1 cb2 5 2 [(7, 3, true)] (by norm_num) rfl


/- FVec extensionality and identity-write lemmas used for idempotence. -/

lemma FVec.ext' {a b : FVec} (hl : a.len = b.len)
    (hg : ∀ i, a.get i = b.get i) : a = b := by
  cases a
  cases b
  simp only [FVec.mk.injEq]
  exact ⟨hl, funext hg⟩

lemma FVec.set_eq {v v' : FVec} {p : ℕ} {x : Option ℚ}
    (h : v.set p x = some v') :
    p < v.len ∧ v' = ⟨v.len, fun i => if i = p then x else v.get i⟩ := by
  unfold FVec.set at h
  split at h
  · cases h
    exact ⟨by assumption, rfl⟩
  · cases h

lemma FVec.set_self {v : FVec} {p : ℕ} {x : Option ℚ}
    (hlt : p < v.len) (hg : v.get p = x) : v.set p x = some v := by
  unfold FVec.set
  rw [if_pos hlt]
  have hEq : (⟨v.len, fun i => if i = p then x else v.get i⟩ : FVec) = v := by
    refine FVec.ext' rfl fun i => ?_
    by_cases hip : i = p
    · subst hip
      simp [hg]
    · simp [hip]
  rw [hEq]

/- Facts about sorted lists used by the best-level cancellation analysis. -/

lemma sorted_le_getLast? : ∀ (l : List ℕ) (m : ℕ), List.Sorted (· ≤ ·) l →
    l.getLast? = some m → ∀ x ∈ l, x ≤ m := by
  intro l
  induction l with
  | nil => intro m _ hm; cases hm
  | cons a t ih =>
    intro m hs hm x hx
    cases t with
    | nil =>
      simp only [List.getLast?_singleton, Option.some_inj] at hm
      rw [List.mem_singleton] at hx
      omega
    | cons b t' =>
      rw [List.getLast?_cons_cons] at hm
      rcases List.mem_cons.mp hx with rfl | hx'
      · have hmm : m ∈ b :: t' := by
          have hne : (b :: t') ≠ [] := by simp
          rw [List.getLast?_eq_getLast _ hne, Option.some_inj] at hm
          rw [← hm]
          exact List.getLast_mem hne
        exact List.rel_of_sorted_cons hs _ hmm
      · exact ih m (List.Sorted.of_cons hs) hm x hx'

/- On cancelling the recorded best bid: the replacement level selected at
   sorted[len - 2] differs from the cancelled tick and the popped point list
   no longer contains it, provided the tick occurs at most once and is an
   upper bound of the recorded points. -/

lemma bid_cancel_facts (pts : List ℕ) (p level : ℕ)
    (hcnt : pts.count p ≤ 1) (hmax : p ∈ pts → ∀ q ∈ pts, q ≤ p)
    (hg : ¬ (List.insertionSort (fun x y : ℕ => x ≤ y) pts).length < 2)
    (hLv : (List.insertionSort (fun x y : ℕ => x ≤ y) pts)[(List.insertionSort
      (fun x y : ℕ => x ≤ y) pts).length - 2]? = some level) :
    level ≠ p ∧ p ∉ (List.insertionSort (fun x y : ℕ => x ≤ y) pts).dropLast := by
  set l := List.insertionSort (fun x y : ℕ => x ≤ y) pts with hl
  have hperm : List.Perm l pts := List.perm_insertionSort _ pts
  have hs : List.Sorted (· ≤ ·) l := List.sorted_insertionSort _ pts
  have hn : 2 ≤ l.length := by omega
  by_cases hq : p ∈ pts
  · have hql : p ∈ l := hperm.mem_iff.mpr hq
    have hne : l ≠ [] := by
      intro hE
      rw [hE] at hn
      simp at hn
    have hmx : ∀ x ∈ l, x ≤ p := fun x hx => hmax hq x (hperm.subset hx)
    have hgl : l.getLast? = some (l.getLast hne) := List.getLast?_eq_getLast l hne
    have hlast : l.getLast hne = p := by
      refine le_antisymm (hmx _ (List.getLast_mem hne)) ?_
      exact sorted_le_getLast? l (l.getLast hne) hs hgl p hql
    have hEq : l.dropLast ++ [p] = l := by
      rw [← hlast]
      exact List.dropLast_append_getLast hne
    have hc1 : l.count p = 1 := by
      have hle : l.count p ≤ 1 := by rw [hperm.count_eq]; exact hcnt
      have hne0 : l.count p ≠ 0 := fun hc => absurd hql (List.count_eq_zero.mp hc)
      omega
    have hcd : l.dropLast.count p = 0 := by
      have hca := congrArg (fun t => List.count p t) hEq
      simp only [List.count_append] at hca
      have hone : List.count p [p] = 1 := by simp
      omega
    have hdl : l.dropLast[l.length - 2]? = some level := by
      rw [List.dropLast_eq_take, List.getElem?_take, if_pos (by omega)]
      exact hLv
    have hlin : level ∈ l.dropLast := List.getElem?_mem hdl
    have hndl : p ∉ l.dropLast := List.count_eq_zero.mp hcd
    exact ⟨fun hE => hndl (hE ▸ hlin), hndl⟩
  · have hql : p ∉ l := fun hx => hq (hperm.subset hx)
    have hlin : level ∈ l := List.getElem?_mem hLv
    exact ⟨fun hE => hql (hE ▸ hlin),
      fun hx => hql ((List.dropLast_sublist l).mem hx)⟩

/- Mirror facts for cancelling the recorded best ask: the replacement level
   sorted[1] differs from the cancelled tick and the dropped point list no
   longer contains it, provided the tick occurs at most once and is a lower
   bound of the recorded points. -/

lemma ask_cancel_facts (pts : List ℕ) (p level : ℕ)
    (hcnt : pts.count p ≤ 1) (hmin : p ∈ pts → ∀ q ∈ pts, p ≤ q)
    (hg : ¬ (List.insertionSort (fun x y : ℕ => x ≤ y) pts).length < 2)
    (hLv : (List.insertionSort (fun x y : ℕ => x ≤ y) pts)[1]? = some level) :
    level ≠ p ∧ p ∉ (List.insertionSort (fun x y : ℕ => x ≤ y) pts).drop 1 := by
  set l := List.insertionSort (fun x y : ℕ => x ≤ y) pts with hl
  have hperm : List.Perm l pts := List.perm_insertionSort _ pts
  have hs : List.Sorted (· ≤ ·) l := List.sorted_insertionSort _ pts
  have hn : 2 ≤ l.length := by omega
  by_cases hq : p ∈ pts
  · obtain ⟨hd, tl, hE⟩ : ∃ hd tl, l = hd :: tl := by
      cases hco : l with
      | nil => rw [hco] at hn; simp at hn
      | cons hd tl => exact ⟨hd, tl, rfl⟩
    have hql : p ∈ hd :: tl := hE ▸ hperm.mem_iff.mpr hq
    have hsl : List.Sorted (· ≤ ·) (hd :: tl) := hE ▸ hs
    have hhd : hd = p := by
      refine le_antisymm ?_ (hmin hq hd (hperm.subset (hE ▸ List.mem_cons_self hd tl)))
      rcases List.mem_cons.mp hql with rfl | hp'
      · exact Nat.le_refl p
      · exact List.rel_of_sorted_cons hsl p hp'
    have hc1 : (hd :: tl).count p = 1 := by
      have hle : (hd :: tl).count p ≤ 1 := by
        rw [← hE, hperm.count_eq]
        exact hcnt
      have hne0 : (hd :: tl).count p ≠ 0 :=
        fun hc => absurd hql (List.count_eq_zero.mp hc)
      omega
    have hct : tl.count p = 0 := by
      rw [hhd] at hc1
      rw [List.count_cons_self] at hc1
      omega
    have hntl : p ∉ tl := List.count_eq_zero.mp hct
    have hLv' : tl[0]? = some level := by
      rw [hE] at hLv
      simpa using hLv
    have hlin : level ∈ tl := List.getElem?_mem hLv'
    refine ⟨fun hEq2 => hntl (hEq2 ▸ hlin), ?_⟩
    rw [hE]
    simpa using hntl
  · have hql : p ∉ l := fun hx => hq (hperm.subset hx)
    have hlin : level ∈ l := List.getElem?_mem hLv
    exact ⟨fun hE => hql (hE ▸ hlin),
      fun hx => hql ((List.drop_sublist 1 l).mem hx)⟩


/- Second-application no-ops: a size-zero removal at a tick that is not the
   recorded best, is absent from the price points, and already holds no size
   leaves the book unchanged. -/

lemma newState_cancel_noop_bid (c : Book) (p : ℕ)
    (hne : ¬ p = c.best_bid) (hnm : p ∉ c.bid_price_points)
    (hlt : p < c.state.len) (hg0 : c.state.get p = none) :
    newState c [(p, 0, true)] = some c := by
  have hself : c.state.set p none = some c.state := FVec.set_self hlt hg0
  simp only [newState, applyUpdate, applyBid, eq_self_iff_true, if_true,
    if_neg hne, hself, List.erase_of_not_mem hnm]

lemma newState_cancel_noop_ask (c : Book) (p : ℕ)
    (hne : ¬ p = c.best_ask) (hnm : p ∉ c.ask_price_points)
    (hlt : p < c.state.len) (hg0 : c.state.get p = none) :
    newState c [(p, 0, false)] = some c := by
  have hself : c.state.set p none = some c.state := FVec.set_self hlt hg0
  simp only [newState, applyUpdate, applyAsk, eq_self_iff_true, if_true,
    Bool.false_eq_true, if_false, if_neg hne, hself,
    List.erase_of_not_mem hnm]


/-- Claim C9, amended: applying the size-zero removal (p, 0, side) twice is
equivalent to applying it once, given the first application does not panic,
provided p occurs at most once in that side's price-point list and, when p
is the recorded best of its side and is recorded, it is extremal among the
recorded points (maximal for bids, minimal for asks).  These side conditions
hold in every book satisfying the invariants of section 3; the counterexample
shows the law fails on books outside them. -/
theorem C9_amended (b b₁ : Book) (p : ℕ) (d : Bool)
    (hcb : d = true → b.bid_price_points.count p ≤ 1 ∧
      (p = b.best_bid → p ∈ b.bid_price_points →
        ∀ q ∈ b.bid_price_points, q ≤ p))
    (hca : d = false → b.ask_price_points.count p ≤ 1 ∧
      (p = b.best_ask → p ∈ b.ask_price_points →
        ∀ q ∈ b.ask_price_points, p ≤ q))
    (h : newState b [(p, 0, d)] = some b₁) :
    newState b₁ [(p, 0, d)] = some b₁ := by
  cases d with
  | true =>
    obtain ⟨hcnt, hmax⟩ := hcb rfl
    simp only [newState, applyUpdate, applyBid, eq_self_iff_true, if_true] at h
    by_cases hbb : p = b.best_bid
    · rw [if_pos hbb] at h
      by_cases hgd : (List.insertionSort (fun x y : ℕ => x ≤ y)
          b.bid_price_points).length < 2
      · rw [if_pos hgd] at h
        simp at h
      · rw [if_neg hgd] at h
        cases hLv : (List.insertionSort (fun x y : ℕ => x ≤ y)
            b.bid_price_points)[(List.insertionSort (fun x y : ℕ => x ≤ y)
            b.bid_price_points).length - 2]? with
        | none => simp only [hLv] at h; simp at h
        | some level =>
          simp only [hLv] at h
          cases hRd : b.state.read level with
          | none => simp only [hRd] at h; simp at h
          | some o =>
            cases o with
            | none => simp only [hRd] at h; simp at h
            | some sz =>
              simp only [hRd] at h
              cases hSet : b.state.set p none with
              | none => simp only [hSet] at h; simp at h
              | some st' =>
                simp only [hSet] at h
                simp only [Option.some_inj] at h
                subst h
                obtain ⟨hlp, hpdl⟩ := bid_cancel_facts b.bid_price_points p
                  level hcnt (hmax hbb) hgd hLv
                obtain ⟨hplt, hst'⟩ := FVec.set_eq hSet
                refine newState_cancel_noop_bid _ p ?_ hpdl ?_ ?_
                · exact fun hE => hlp hE.symm
                · rw [hst']
                  exact hplt
                · rw [hst']
                  simp
    · rw [if_neg hbb] at h
      cases hSet : b.state.set p none with
      | none => simp only [hSet] at h; simp at h
      | some st' =>
        simp only [hSet] at h
        simp only [Option.some_inj] at h
        subst h
        obtain ⟨hplt, hst'⟩ := FVec.set_eq hSet
        have hpe : p ∉ b.bid_price_points.erase p := by
          have hcd : (b.bid_price_points.erase p).count p = 0 := by
            rw [List.count_erase_self]
            omega
          exact List.count_eq_zero.mp hcd
        refine newState_cancel_noop_bid _ p hbb hpe ?_ ?_
        · rw [hst']
          exact hplt
        · rw [hst']
          simp
  | false =>
    obtain ⟨hcnt, hmin⟩ := hca rfl
    simp only [newState, applyUpdate, applyAsk, eq_self_iff_true, if_true,
      Bool.false_eq_true, if_false] at h
    by_cases hbb : p = b.best_ask
    · rw [if_pos hbb] at h
      by_cases hgd : (List.insertionSort (fun x y : ℕ => x ≤ y)
          b.ask_price_points).length < 2
      · rw [if_pos hgd] at h
        simp at h
      · rw [if_neg hgd] at h
        cases hLv : (List.insertionSort (fun x y : ℕ => x ≤ y)
            b.ask_price_points)[1]? with
        | none => simp only [hLv] at h; simp at h
        | some level =>
          simp only [hLv] at h
          cases hRd : b.state.read level with
          | none => simp only [hRd] at h; simp at h
          | some o =>
            cases o with
            | none => simp only [hRd] at h; simp at h
            | some sz =>
              simp only [hRd] at h
              cases hSet : b.state.set p none with
              | none => simp only [hSet] at h; simp at h
              | some st' =>
                simp only [hSet] at h
                simp only [Option.some_inj] at h
                subst h
                obtain ⟨hlp, hpdl⟩ := ask_cancel_facts b.ask_price_points p
                  level hcnt (hmin hbb) hgd hLv
                obtain ⟨hplt, hst'⟩ := FVec.set_eq hSet
                refine newState_cancel_noop_ask _ p ?_ hpdl ?_ ?_
                · exact fun hE => hlp hE.symm
                · rw [hst']
                  exact hplt
                · rw [hst']
                  simp
    · rw [if_neg hbb] at h
      cases hSet : b.state.set p none with
      | none => simp only [hSet] at h; simp at h
      | some st' =>
        simp only [hSet] at h
        simp only [Option.some_inj] at h
        subst h
        obtain ⟨hplt, hst'⟩ := FVec.set_eq hSet
        have hpe : p ∉ b.ask_price_points.erase p := by
          have hcd : (b.ask_price_points.erase p).count p = 0 := by
            rw [List.count_erase_self]
            omega
          exact List.count_eq_zero.mp hcd
        refine newState_cancel_noop_ask _ p hbb hpe ?_ ?_
        · rw [hst']
          exact hplt
        · rw [hst']
          simp

/- The book of the C9 witness: bid points [3, 5] with the best bid properly
   recorded at the maximal tick 5. -/

def bw9 : Book :=
  { defaultBook with tick_size := 1, best_bid := 5, best_bid_size := 1,
                     best_ask := 9, best_ask_size := 1,
                     bid_price_points := [3, 5], ask_price_points := [9],
                     state := ⟨100000,
                       fun i => if i = 3 ∨ i = 5 ∨ i = 9 then some 1 else none⟩ }

set_option maxRecDepth 8000 in
/-- Claim C9, witness: on a book whose bid points [3, 5] record the best bid
at the maximal tick 5, cancelling (5, 0, bid) twice equals cancelling once. -/
theorem C9_amended_witness :
    ((newState bw9 [(5, 0, true)]).bind
      (fun x => newState x [(5, 0, true)])) = newState bw9 [(5, 0, true)] := by
  obtain ⟨b₁, hb₁⟩ := Option.isSome_iff_exists.mp
    (by with_unfolding_all decide : (newState bw9 [(5, 0, true)]).isSome = true)
  rw [hb₁, Option.some_bind]
  rw [C9_amended bw9 b₁ 5 true
    (fun _ => ⟨by decide, fun _ _ => by decide⟩)
    (fun hF => absurd hF (by decide)) hb₁]


/- Specification of the initialize fill loop: under in-range ticks it
   succeeds, preserves the vector length, leaves unnamed ticks untouched and,
   when the ticks are distinct, stores each pair's size at its tick. -/

lemma fillSide_spec : ∀ (l : List (ℕ × ℚ)) (st : FVec),
    (∀ pr ∈ l, pr.1 < st.len) →
    ∃ v, fillSide st l = some v ∧ v.len = st.len ∧
      (∀ i, i ∉ l.map Prod.fst → v.get i = st.get i) ∧
      ((l.map Prod.fst).Nodup → ∀ pr ∈ l, v.get pr.1 = some pr.2) := by
  intro l
  induction l with
  | nil =>
    intro st _
    exact ⟨st, rfl, rfl, fun i _ => rfl, fun _ pr hpr => absurd hpr
      (List.not_mem_nil pr)⟩
  | cons a t ih =>
    intro st hb
    have hlt : a.1 < st.len := hb a (List.mem_cons_self a t)
    have hset : st.set a.1 (some a.2) =
        some ⟨st.len, fun i => if i = a.1 then some a.2 else st.get i⟩ := by
      unfold FVec.set
      rw [if_pos hlt]
    have hb1 : ∀ pr ∈ t, pr.1 <
        (⟨st.len, fun i => if i = a.1 then some a.2 else st.get i⟩ : FVec).len :=
      fun pr hpr => hb pr (List.mem_cons_of_mem a hpr)
    obtain ⟨v, hv, hvlen, hvout, hvin⟩ := ih _ hb1
    refine ⟨v, ?_, hvlen, ?_, ?_⟩
    · simp only [fillSide, hset]
      exact hv
    · intro i hi
      have hia : ¬ i = a.1 := fun hE => hi (by
        rw [List.map_cons]
        exact hE ▸ List.mem_cons_self a.1 (t.map Prod.fst))
      have hit : i ∉ t.map Prod.fst := fun hE => hi (by
        rw [List.map_cons]
        exact List.mem_cons_of_mem a.1 hE)
      rw [hvout i hit]
      exact if_neg hia
    · intro hnd pr hpr
      rw [List.map_cons] at hnd
      rcases List.mem_cons.mp hpr with rfl | hpr'
      · have hna : pr.1 ∉ t.map Prod.fst := (List.nodup_cons.mp hnd).1
        rw [hvout pr.1 hna]
        exact if_pos rfl
      · exact hvin (List.nodup_cons.mp hnd).2 pr hpr'

/- Specification of the snapshot materialisation: when every listed tick is
   in range and holds the listed size, the collected levels are the pairs
   (tick as float, size). -/

lemma collectLevels_spec : ∀ (l : List (ℕ × ℚ)) (v : FVec),
    (∀ pr ∈ l, pr.1 < v.len) → (∀ pr ∈ l, v.get pr.1 = some pr.2) →
    collectLevels v (l.map Prod.fst) =
      some (l.map (fun pr => ((pr.1 : ℚ), pr.2))) := by
  intro l
  induction l with
  | nil => intro v _ _; rfl
  | cons a t ih =>
    intro v hb hg
    have hrd : v.read a.1 = some (some a.2) := by
      unfold FVec.read
      rw [if_pos (hb a (List.mem_cons_self a t)),
        hg a (List.mem_cons_self a t)]
    simp only [List.map_cons, collectLevels, hrd,
      ih v (fun pr hpr => hb pr (List.mem_cons_of_mem a hpr))
           (fun pr hpr => hg pr (List.mem_cons_of_mem a hpr)),
      Option.map_some']
    rfl


/-- Claim C4, amended: for every fresh Book (empty price-point lists) and
snapshot whose tick-quantized prices are in range and pairwise distinct
across both sides, get_snapshot immediately after initialize returns, per
side, the quantized pairs of the snapshot sorted ascending by tick, with the
price component equal to the integer tick index floor(price/tick_size) cast
to a float - not the original price. -/
theorem C4_amended (b : Book) (s : Snapshot)
    (hfb : b.bid_price_points = []) (hfa : b.ask_price_points = [])
    (hrb : ∀ pr ∈ s.bids, tickIndex b.tick_size pr.1 < stateLen b.tick_size)
    (hra : ∀ pr ∈ s.asks, tickIndex b.tick_size pr.1 < stateLen b.tick_size)
    (hnd : ((s.bids.map (fun pr => tickIndex b.tick_size pr.1)) ++
            (s.asks.map (fun pr => tickIndex b.tick_size pr.1))).Nodup) :
    (initBook b s).bind getSnapshot = some
      { market := b.market, asset := b.asset,
        bids := (List.insertionSort (fun x y : ℕ × ℚ => x.1 ≤ y.1)
          (s.bids.map (fun pr => (tickIndex b.tick_size pr.1, pr.2)))).map
            (fun pr => ((pr.1 : ℚ), pr.2)),
        asks := (List.insertionSort (fun x y : ℕ × ℚ => x.1 ≤ y.1)
          (s.asks.map (fun pr => (tickIndex b.tick_size pr.1, pr.2)))).map
            (fun pr => ((pr.1 : ℚ), pr.2)) } := by
  rcases List.nodup_append.mp hnd with ⟨hnb, hna, hdisj⟩
  have hqb_keys : (s.bids.map
      (fun pr => (tickIndex b.tick_size pr.1, pr.2))).map Prod.fst =
      s.bids.map (fun pr => tickIndex b.tick_size pr.1) := by
    rw [List.map_map]
    rfl
  have hqa_keys : (s.asks.map
      (fun pr => (tickIndex b.tick_size pr.1, pr.2))).map Prod.fst =
      s.asks.map (fun pr => tickIndex b.tick_size pr.1) := by
    rw [List.map_map]
    rfl
  have hpB := List.perm_insertionSort (fun x y : ℕ × ℚ => x.1 ≤ y.1)
    (s.bids.map (fun pr => (tickIndex b.tick_size pr.1, pr.2)))
  have hpA := List.perm_insertionSort (fun x y : ℕ × ℚ => x.1 ≤ y.1)
    (s.asks.map (fun pr => (tickIndex b.tick_size pr.1, pr.2)))
  have hkeyB : ∀ pr ∈ List.insertionSort (fun x y : ℕ × ℚ => x.1 ≤ y.1)
      (s.bids.map (fun pr => (tickIndex b.tick_size pr.1, pr.2))),
      pr.1 ∈ s.bids.map (fun pr => tickIndex b.tick_size pr.1) := by
    intro pr hpr
    rw [← hqb_keys]
    exact List.mem_map_of_mem Prod.fst (hpB.subset hpr)
  have hkeyA : ∀ pr ∈ List.insertionSort (fun x y : ℕ × ℚ => x.1 ≤ y.1)
      (s.asks.map (fun pr => (tickIndex b.tick_size pr.1, pr.2))),
      pr.1 ∈ s.asks.map (fun pr => tickIndex b.tick_size pr.1) := by
    intro pr hpr
    rw [← hqa_keys]
    exact List.mem_map_of_mem Prod.fst (hpA.subset hpr)
  have hboundsB : ∀ pr ∈ List.insertionSort (fun x y : ℕ × ℚ => x.1 ≤ y.1)
      (s.bids.map (fun pr => (tickIndex b.tick_size pr.1, pr.2))),
      pr.1 < (⟨stateLen b.tick_size, fun _ => none⟩ : FVec).len := by
    intro pr hpr
    rcases List.mem_map.mp (hkeyB pr hpr) with ⟨pr0, h0, hEq⟩
    rw [← hEq]
    exact hrb pr0 h0
  obtain ⟨v1, hv1, hv1len, hv1out, hv1in⟩ := fillSide_spec
    (List.insertionSort (fun x y : ℕ × ℚ => x.1 ≤ y.1)
      (s.bids.map (fun pr => (tickIndex b.tick_size pr.1, pr.2))))
    ⟨stateLen b.tick_size, fun _ => none⟩ hboundsB
  have hboundsA : ∀ pr ∈ List.insertionSort (fun x y : ℕ × ℚ => x.1 ≤ y.1)
      (s.asks.map (fun pr => (tickIndex b.tick_size pr.1, pr.2))),
      pr.1 < v1.len := by
    intro pr hpr
    rw [hv1len]
    rcases List.mem_map.mp (hkeyA pr hpr) with ⟨pr0, h0, hEq⟩
    rw [← hEq]
    exact hra pr0 h0
  obtain ⟨v2, hv2, hv2len, hv2out, hv2in⟩ := fillSide_spec
    (List.insertionSort (fun x y : ℕ × ℚ => x.1 ≤ y.1)
      (s.asks.map (fun pr => (tickIndex b.tick_size pr.1, pr.2)))) v1 hboundsA
  have hnB : ((List.insertionSort (fun x y : ℕ × ℚ => x.1 ≤ y.1)
      (s.bids.map (fun pr => (tickIndex b.tick_size pr.1, pr.2)))).map
        Prod.fst).Nodup := by
    refine ((hpB.map Prod.fst).nodup_iff).mpr ?_
    rw [hqb_keys]
    exact hnb
  have hnA : ((List.insertionSort (fun x y : ℕ × ℚ => x.1 ≤ y.1)
      (s.asks.map (fun pr => (tickIndex b.tick_size pr.1, pr.2)))).map
        Prod.fst).Nodup := by
    refine ((hpA.map Prod.fst).nodup_iff).mpr ?_
    rw [hqa_keys]
    exact hna
  have hnotA : ∀ pr ∈ List.insertionSort (fun x y : ℕ × ℚ => x.1 ≤ y.1)
      (s.bids.map (fun pr => (tickIndex b.tick_size pr.1, pr.2))),
      pr.1 ∉ (List.insertionSort (fun x y : ℕ × ℚ => x.1 ≤ y.1)
        (s.asks.map (fun pr => (tickIndex b.tick_size pr.1, pr.2)))).map
          Prod.fst := by
    intro pr hpr hk
    have hk' : pr.1 ∈ s.asks.map (fun pr => tickIndex b.tick_size pr.1) := by
      rw [← hqa_keys]
      exact (hpA.map Prod.fst).subset hk
    exact hdisj (hkeyB pr hpr) hk'
  have hvalsB : ∀ pr ∈ List.insertionSort (fun x y : ℕ × ℚ => x.1 ≤ y.1)
      (s.bids.map (fun pr => (tickIndex b.tick_size pr.1, pr.2))),
      v2.get pr.1 = some pr.2 := by
    intro pr hpr
    rw [hv2out pr.1 (hnotA pr hpr)]
    exact hv1in hnB pr hpr
  have hvalsA : ∀ pr ∈ List.insertionSort (fun x y : ℕ × ℚ => x.1 ≤ y.1)
      (s.asks.map (fun pr => (tickIndex b.tick_size pr.1, pr.2))),
      v2.get pr.1 = some pr.2 := fun pr hpr => hv2in hnA pr hpr
  have hboundsB2 : ∀ pr ∈ List.insertionSort (fun x y : ℕ × ℚ => x.1 ≤ y.1)
      (s.bids.map (fun pr => (tickIndex b.tick_size pr.1, pr.2))),
      pr.1 < v2.len := by
    intro pr hpr
    rw [hv2len, hv1len]
    exact hboundsB pr hpr
  have hboundsA2 : ∀ pr ∈ List.insertionSort (fun x y : ℕ × ℚ => x.1 ≤ y.1)
      (s.asks.map (fun pr => (tickIndex b.tick_size pr.1, pr.2))),
      pr.1 < v2.len := by
    intro pr hpr
    rw [hv2len]
    exact hboundsA pr hpr
  have hcolB := collectLevels_spec
    (List.insertionSort (fun x y : ℕ × ℚ => x.1 ≤ y.1)
      (s.bids.map (fun pr => (tickIndex b.tick_size pr.1, pr.2))))
    v2 hboundsB2 hvalsB
  have hcolA := collectLevels_spec
    (List.insertionSort (fun x y : ℕ × ℚ => x.1 ≤ y.1)
      (s.asks.map (fun pr => (tickIndex b.tick_size pr.1, pr.2))))
    v2 hboundsA2 hvalsA
  have hinit : initBook b s = some
      { b with
        state := v2,
        bid_price_points := b.bid_price_points ++
          (List.insertionSort (fun x y : ℕ × ℚ => x.1 ≤ y.1)
            (s.bids.map (fun pr => (tickIndex b.tick_size pr.1, pr.2)))).map
              Prod.fst,
        ask_price_points := b.ask_price_points ++
          (List.insertionSort (fun x y : ℕ × ℚ => x.1 ≤ y.1)
            (s.asks.map (fun pr => (tickIndex b.tick_size pr.1, pr.2)))).map
              Prod.fst,
        best_bid := match (List.insertionSort (fun x y : ℕ × ℚ => x.1 ≤ y.1)
            (s.bids.map (fun pr =>
              (tickIndex b.tick_size pr.1, pr.2)))).getLast? with
          | some pr => pr.1
          | none => b.best_bid,
        best_bid_size := match (List.insertionSort
            (fun x y : ℕ × ℚ => x.1 ≤ y.1) (s.bids.map (fun pr =>
              (tickIndex b.tick_size pr.1, pr.2)))).getLast? with
          | some pr => pr.2
          | none => b.best_bid_size,
        best_ask := match (List.insertionSort (fun x y : ℕ × ℚ => x.1 ≤ y.1)
            (s.asks.map (fun pr =>
              (tickIndex b.tick_size pr.1, pr.2)))).head? with
          | some pr => pr.1
          | none => b.best_ask,
        best_ask_size := match (List.insertionSort
            (fun x y : ℕ × ℚ => x.1 ≤ y.1) (s.asks.map (fun pr =>
              (tickIndex b.tick_size pr.1, pr.2)))).head? with
          | some pr => pr.2
          | none => b.best_ask_size } := by
    unfold initBook
    simp only [hv1]
    simp only [hv2]
  rw [hinit]
  show getSnapshot _ = _
  unfold getSnapshot
  simp only [hfb, hfa, List.nil_append, hcolB, hcolA]


set_option maxRecDepth 8000 in
/-- Claim C4, witness: the amended theorem applied to the tick-size-0.5 book
and the snapshot with bid (302, 50) and ask (305, 20.5); the returned bid
pair is (604, 50), the tick index as a float. -/
theorem C4_amended_witness :
    (initBook e1Book c4Snap).bind getSnapshot = some
      { market := e1Book.market, asset := e1Book.asset,
        bids := (List.insertionSort (fun x y : ℕ × ℚ => x.1 ≤ y.1)
          (c4Snap.bids.map
            (fun pr => (tickIndex e1Book.tick_size pr.1, pr.2)))).map
              (fun pr => ((pr.1 : ℚ), pr.2)),
        asks := (List.insertionSort (fun x y : ℕ × ℚ => x.1 ≤ y.1)
          (c4Snap.asks.map
            (fun pr => (tickIndex e1Book.tick_size pr.1, pr.2)))).map
              (fun pr => ((pr.1 : ℚ), pr.2)) } :=
  C4_amended e1Book c4Snap rfl rfl
    (by with_unfolding_all decide)
    (by with_unfolding_all decide)
    (by with_unfolding_all decide)

end Chocolate
